import Mathlib

/-!
Verification of the archive pipeline of the repository (the `jupyter_archive`
streaming-writer handler and the `jupyterlab_qzv` extraction handler).

Paths, filenames and archive entry names are modelled as lists of
characters (`PyStr`), matching Python strings; the Python string and
`os.path` / `pathlib` operations the handlers rely on are embedded
character-for-character below (POSIX separators, which is what the code
runs on).  Archives are modelled as the list of their entries in archive
order (`zipfile.ZipFile.namelist` order).
-/

/-- Python strings, as lists of characters. -/
abbrev PyStr := List Char

/-- Embed a Lean string literal as a `PyStr`. -/
def pystr (s : String) : PyStr := s.data

/-- Python `s.startswith(p)`. -/
def pyStartsWith (s p : PyStr) : Bool := p.isPrefixOf s

/-- Python `s.endswith(p)`. -/
def pyEndsWith (s p : PyStr) : Bool := p.isSuffixOf s

/-- Python `b.startswith('/')`, the absolute-path test used by
`posixpath.join` and `pathlib` when joining. -/
def isAbsP (s : PyStr) : Bool := s.head? == some '/'

/-- POSIX `os.path.join(a, b)`: an absolute second argument discards the
first; otherwise the parts are glued with `'/'` unless `a` is empty or
already ends with `'/'`. -/
def osPathJoin (a b : PyStr) : PyStr :=
  if isAbsP b then b
  else if a = [] ∨ a.getLast? == some '/' then a ++ b
  else a ++ pystr "/" ++ b

/-- `pathlib` child join `p / s` (POSIX): an absolute `s` replaces `p`,
otherwise `s` is appended as a further component. -/
def pathlibChild (p s : PyStr) : PyStr :=
  if isAbsP s then s
  else if p.getLast? == some '/' then p ++ s
  else p ++ pystr "/" ++ s

/-- Component normalisation loop of CPython `posixpath.normpath`: empty and
`.` components are dropped, `..` pops the previous component (except at the
root of an absolute path, and except when there is nothing left to pop in a
relative path, where `..` is kept). `acc` holds the already-produced
components in reverse. -/
def normParts (isAbs : Bool) (acc : List PyStr) : List PyStr → List PyStr
  | [] => acc.reverse
  | c :: rest =>
    if c = [] ∨ c = pystr "." then normParts isAbs acc rest
    else if c = pystr ".." then
      if (¬ isAbs ∧ acc = []) ∨ acc.head? = some (pystr "..") then
        normParts isAbs (c :: acc) rest
      else if acc = [] then normParts isAbs acc rest
      else normParts isAbs acc.tail rest
    else normParts isAbs (c :: acc) rest

/-- CPython `posixpath.normpath` (single leading slash; the obscure
double-leading-slash POSIX special case is not exercised by the code). -/
def posixNormpath (p : PyStr) : PyStr :=
  if p = [] then pystr "."
  else
    let abs := isAbsP p
    let comps := normParts abs [] (p.splitOn '/')
    let r := (if abs then pystr "/" else []) ++ (pystr "/").intercalate comps
    if r = [] then pystr "." else r

/-- Length of the common prefix of two component lists
(`os.path.commonprefix` on sequences). -/
def commonPrefLen : List PyStr → List PyStr → Nat
  | a :: as, b :: bs => if a = b then commonPrefLen as bs + 1 else 0
  | _, _ => 0

/-- Components of `os.path.abspath(p)` for an already-absolute `p`:
`normpath(p)` split on `'/'` with empty components dropped, which is exactly
the output of the `normpath` component loop. -/
def absParts (p : PyStr) : List PyStr := normParts true [] (p.splitOn '/')

/-- POSIX `os.path.relpath(p, start)` for absolute `p` and `start`. -/
def pyRelpath (p start : PyStr) : PyStr :=
  let pl := absParts p
  let sl := absParts start
  let i := commonPrefLen sl pl
  let rel := List.replicate (sl.length - i) (pystr "..") ++ pl.drop i
  if rel = [] then pystr "." else (pystr "/").intercalate rel

/-- `pathlib.PurePosixPath(s).parts`: a leading `'/'` becomes a root part,
then the `'/'`-separated components with empty and `.` components dropped. -/
def pathParts (s : PyStr) : List PyStr :=
  (if isAbsP s then [pystr "/"] else []) ++
    (s.splitOn '/').filter (fun c => !(c = [] ∨ c = pystr "."))

/-- `"".join(pathlib.Path(name).suffixes)`: empty when the name ends with a
dot; otherwise the name is stripped of leading dots, split on `'.'`, and
every part after the first is re-prefixed with `'.'` and concatenated. -/
def joinedSuffixes (name : PyStr) : PyStr :=
  if pyEndsWith name (pystr ".") then []
  else
    let n := name.dropWhile (· = '.')
    ((n.splitOn '.').tail.map (fun s => '.' :: s)).flatten

/-! ## Archive data model -/

/-- One archive member: its stored name and payload bytes. -/
structure ZipEntry where
  name : PyStr
  content : List Nat
deriving DecidableEq

/-- An archive, as its members in `namelist()` order. -/
structure Archive where
  entries : List ZipEntry
deriving DecidableEq

/-! ## `jupyterlab_qzv/handlers.py` -/

/-- Python exceptions that escape the handler uncaught. -/
inductive PyError where
  /-- `IndexError`, from `myzip.namelist()[0]` on an empty archive. -/
  | indexError
  /-- `ValueError("'{fmt}' is not a valid archive format.")` from
  `make_reader`, carrying the offending joined-suffixes string. -/
  | valueError (fmt : PyStr)
deriving DecidableEq

/-- The runtime type of the object `make_reader` returns
(`zipfile.ZipFile` or `tarfile.TarFile`); `extract_qzv` branches on it
with `isinstance(archive_reader, tarfile.TarFile)`. -/
inductive ReaderKind where
  | zipFile
  | tarFile
deriving DecidableEq

def QIIME_DIR_NAME : PyStr := pystr "_qiime"

def QIIME_TIMESTAMP_FILE : PyStr := pystr "_created"

/-- `make_reader`: joins the path's suffixes; a `.qzv`-suffixed name is
opened as a `zipfile.ZipFile`, every other name raises `ValueError`. -/
def makeReader (name : PyStr) : Except PyError ReaderKind :=
  let fmt := joinedSuffixes name
  if pyEndsWith fmt (pystr ".qzv") then .ok .zipFile
  else .error (.valueError fmt)

/-- `get_uuid`: `Path(myzip.namelist()[0]).parts[0] if parts else None`;
indexing the name list of an empty archive raises `IndexError`. -/
def getUuid (ar : Archive) : Except PyError (Option PyStr) :=
  match ar.entries with
  | [] => .error .indexError
  | e :: _ => .ok (pathParts e.name).head?

/-- `write_timestamp` target `Path.home() / QIIME_DIR_NAME / uuid_str /
QIIME_TIMESTAMP_FILE`. -/
def writeTimestampPath (home uuid : PyStr) : PyStr :=
  pathlibChild (pathlibChild (pathlibChild home QIIME_DIR_NAME) uuid)
    QIIME_TIMESTAMP_FILE

/-- `datetime.timedelta.days` of `today - creation_date` where `today` is a
full datetime (`todayTotalSeconds` seconds since the epoch) and
`creation_date` is the parsed marker date at midnight of day `creationDay`:
floor division of the difference by one day of seconds. -/
def timedeltaDays (todayTotalSeconds creationDay : Int) : Int :=
  (todayTotalSeconds - creationDay * 86400).fdiv 86400

/-- An immediate child of the retention root `~/_qiime`: its name and, when
it contains a `_created` marker file, the parsed marker date (as a day
number; `write_timestamp` stores `date.today().isoformat()` and the sweep
parses it back with `strptime("%Y-%m-%d")`, so the round trip is the date
itself). -/
structure ChildDir where
  name : PyStr
  markerDay : Option Int
deriving DecidableEq

/-- The directories `cleanup_qiime_dir(interval_threshold)` removes: the
glob `*/_created` selects exactly the marker-bearing children, and a child
is removed when `(today - creation_date).days > interval_threshold`. -/
def cleanupRemoved (thr : Int) (todayTotalSeconds : Int)
    (dirs : List ChildDir) : List ChildDir :=
  dirs.filter (fun d =>
    match d.markerDay with
    | none => false
    | some day => decide (thr < timedeltaDays todayTotalSeconds day))

/-- The per-entry test of the tar branch of `extract_qzv`:
`os.path.relpath(archive_destination / name, archive_destination)
.startswith(os.pardir)`. -/
def tarEntryUnsafe (dest name : PyStr) : Bool :=
  pyStartsWith (pyRelpath (pathlibChild dest name) dest) (pystr "..")

/-- Member-name sanitisation of CPython `zipfile.ZipFile._extract_member`:
drive split is a no-op on POSIX, then every empty, `.` and `..` component
is dropped before the name is joined under the destination. -/
def zipSanitize (name : PyStr) : PyStr :=
  (pystr "/").intercalate
    ((name.splitOn '/').filter
      (fun c => !(c = [] ∨ c = pystr "." ∨ c = pystr "..")))

/-- `zipfile.ZipFile.extractall`: members whose name ends in `'/'` only
create directories; every other member is written at its sanitised name
(relative to the destination root) with its payload. -/
def zipExtractAll (ar : Archive) : List (PyStr × List Nat) :=
  ar.entries.filterMap (fun e =>
    if e.name.getLast? == some '/' then none
    else some (zipSanitize e.name, e.content))

/-- `tarfile.TarFile.extractall` (pre-filter semantics): members are
written at their stored names relative to the destination, unsanitised.
Only reachable from the dead tar branch of `extract_qzv`. -/
def tarExtractAll (ar : Archive) : List (PyStr × List Nat) :=
  ar.entries.map (fun e => (e.name, e.content))

/-- Failures of `extract_qzv`: an exception from `make_reader`
(propagating uncaught), or `web.HTTPError(400)` from the tar-only
path-traversal check, carrying the offending entry name. -/
inductive ExtractErr where
  | py (e : PyError)
  | http400 (name : PyStr)
deriving DecidableEq

/-- `ExtractQzvHandler.extract_qzv`: resolve the reader from the filename;
when (and only when) the reader is a `tarfile.TarFile`, scan every entry
name for path traversal before extracting and fail with HTTP 400 on the
first unsafe one; then extract everything into `~/_qiime`.  Returns the
files written, as destination-relative paths with payloads. -/
def extractQzv (home name : PyStr) (ar : Archive) :
    Except ExtractErr (List (PyStr × List Nat)) :=
  let dest := pathlibChild home QIIME_DIR_NAME
  match makeReader name with
  | .error e => .error (.py e)
  | .ok rk =>
    match rk with
    | .tarFile =>
      match ar.entries.find? (fun en => tarEntryUnsafe dest en.name) with
      | some en => .error (.http400 en.name)
      | none => .ok (tarExtractAll ar)
    | .zipFile => .ok (zipExtractAll ar)

/-- Observable steps of one `ExtractQzvHandler.get` request, in order:
the archive is opened and read (by `get_uuid`), the retention sweep runs,
the archive is extracted, the timestamp marker is written. -/
inductive Ev where
  | readArchive
  | cleanup
  | extract
  | writeTimestamp
deriving DecidableEq

/-- Data of a successful response: the derived identifier `uuid_str`, the
URL of the JSON body, the marker file path written by `write_timestamp`,
and the files extracted under `~/_qiime`. -/
structure OkData where
  uuid : PyStr
  url : PyStr
  markerPath : PyStr
  files : List (PyStr × List Nat)
deriving DecidableEq

/-- How one request terminates. -/
inductive HOutcome where
  /-- `self.finish(json.dumps({"data": url}))`. -/
  | ok (d : OkData)
  /-- `set_status(500)` + JSON `{"data": msg}` body + `HTTPError(500)`,
  taken when `get_uuid` returns `None`. -/
  | jsonError500 (msg : PyStr)
  /-- `web.HTTPError(400, ...)` raised by the traversal check. -/
  | httpError (status : Nat) (name : PyStr)
  /-- an uncaught Python exception (surfaced by the framework as a plain
  500 without a handler-written body). -/
  | uncaught (e : PyError)
deriving DecidableEq

/-- A request's event trace together with its outcome. -/
structure ReqResult where
  trace : List Ev
  outcome : HOutcome
deriving DecidableEq

/-- The response URL: `os.path.join(service_prefix,
f"/shiny/{QIIME_DIR_NAME}/{uuid_str}/data/#")`. -/
def resultUrl (svcPfx uuid : PyStr) : PyStr :=
  osPathJoin svcPfx
    (pystr "/shiny/" ++ QIIME_DIR_NAME ++ pystr "/" ++ uuid ++ pystr "/data/#")

/-- `ExtractQzvHandler.get` on an archive file named `name` with parsed
content `ar` (the hidden-file policy check and the `JUPYTERHUB_USER`
check are external-collaborator concerns: the former queries the contents
manager, the latter can never fire because of the `"jovyan"` default).
`svcPfx` is `JUPYTERHUB_SERVICE_PREFIX`, `home` is `Path.home()`. -/
def handlerGet (svcPfx home name : PyStr) (ar : Archive) : ReqResult :=
  match getUuid ar with
  | .error e => ⟨[.readArchive], .uncaught e⟩
  | .ok none =>
      ⟨[.readArchive],
       .jsonError500 (pystr "Failed to get UUID from the QZV file: " ++ name)⟩
  | .ok (some uuid) =>
    match extractQzv home name ar with
    | .error (.py e) => ⟨[.readArchive, .cleanup], .uncaught e⟩
    | .error (.http400 n) => ⟨[.readArchive, .cleanup], .httpError 400 n⟩
    | .ok files =>
        ⟨[.readArchive, .cleanup, .extract, .writeTimestamp],
         .ok ⟨uuid, resultUrl svcPfx uuid, writeTimestampPath home uuid, files⟩⟩

/-! ## `jupyter_archive/handlers.py` -/

/-- The two codecs `make_writer` can construct: `zipfile.ZipFile(mode='w')`
for the token `"zip"`, `tarfile.TarFile(mode='w')` (an uncompressed tar
stream, despite the token's name) for `"tgz"`. -/
inductive Codec where
  | zipW
  | tarW
deriving DecidableEq

/-- `make_writer`: every token other than `"zip"` and `"tgz"` raises
`ValueError`. -/
def makeWriter (fmt : PyStr) : Except PyError Codec :=
  if fmt = pystr "zip" then .ok .zipW
  else if fmt = pystr "tgz" then .ok .tarW
  else .error (.valueError fmt)

/-- One regular file under the source directory, as `os.walk` reaches it:
the `'/'`-separated components of its containing directory relative to the
walk root (empty for files directly in the root), its filename, and its
bytes.  A source tree is the list of such files in walk order. -/
structure FsFile where
  dirSegs : List PyStr
  fname : PyStr
  content : List Nat
deriving DecidableEq

/-- A source directory tree, flattened in `os.walk` order. -/
abbrev FsTree := List FsFile

/-- The suffix that `os.walk` appends to the walk root to form `root` for
a directory `dirSegs` deep: `os.path.join` glues one `'/'` before each
component (the walk root comes from `os.path.abspath` and so has no
trailing separator, the root directory `"/"` itself aside). -/
def relRoot (dirSegs : List PyStr) : PyStr :=
  if dirSegs = [] then [] else '/' :: (pystr "/").intercalate dirSegs

/-- The arcname the handler passes to `writer.add`:
`os.path.join(root[len(archive_path):], filename)` with
`root = archive_path + relRoot dirSegs`; Python `str[n:]` is `List.drop`. -/
def rawArcname (archivePath : PyStr) (f : FsFile) : PyStr :=
  osPathJoin ((archivePath ++ relRoot f.dirSegs).drop archivePath.length) f.fname

/-- Stored-name normalisation of `zipfile.ZipInfo.from_file`: drive split
(no-op on POSIX), `os.path.normpath`, then leading separators stripped. -/
def zipWriteArcname (a : PyStr) : PyStr :=
  (posixNormpath a).dropWhile (· = '/')

/-- Stored-name normalisation of `tarfile.TarFile.gettarinfo`: drive split
and separator replacement (no-ops on POSIX), then `lstrip("/")`. -/
def tarWriteArcname (a : PyStr) : PyStr :=
  a.dropWhile (· = '/')

/-- The name an entry is stored under, per codec. -/
def storedName : Codec → PyStr → PyStr
  | .zipW, a => zipWriteArcname a
  | .tarW, a => tarWriteArcname a

/-- `ArchiveHandler.get`'s write loop: for every regular file of the walk,
add an entry named by the codec-normalised arcname, with the file's
bytes. -/
def writeArchive (c : Codec) (archivePath : PyStr) (t : FsTree) : Archive :=
  ⟨t.map (fun f => ⟨storedName c (rawArcname archivePath f), f.content⟩)⟩

/-- A file's path relative to the source directory, as a `'/'`-joined
string. -/
def relPathStr (f : FsFile) : PyStr :=
  (pystr "/").intercalate (f.dirSegs ++ [f.fname])

/-- An ordinary path component: nonempty, not `.` or `..`, and without a
separator. -/
def cleanName (s : PyStr) : Bool :=
  !(s = [] ∨ s = pystr "." ∨ s = pystr ".." ∨ '/' ∈ s)

/-- Every directory component and filename of the tree is an ordinary
component. -/
def cleanTree (t : FsTree) : Bool :=
  t.all (fun f => f.dirSegs.all cleanName && cleanName f.fname)

/-! ## Helper lemmas -/

theorem pystr_slash : pystr "/" = ['/'] := rfl

/-- Unfolding of `cleanName`. -/
theorem cleanName_iff (s : PyStr) :
    cleanName s = true ↔ s ≠ [] ∧ s ≠ pystr "." ∧ s ≠ pystr ".." ∧ '/' ∉ s := by
  simp [cleanName]

theorem head?_ne_slash_of_clean {s : PyStr} (h : cleanName s = true) :
    s.head? ≠ some '/' := by
  obtain ⟨h1, -, -, h4⟩ := (cleanName_iff s).mp h
  intro hc
  exact h4 (List.mem_of_mem_head? (hc ▸ rfl))

theorem getLast?_ne_slash_of_clean {s : PyStr} (h : cleanName s = true) :
    s.getLast? ≠ some '/' := by
  obtain ⟨h1, -, -, h4⟩ := (cleanName_iff s).mp h
  rw [List.getLast?_eq_getLast_of_ne_nil h1]
  intro hc
  have hm := List.getLast_mem h1
  rw [Option.some_inj.mp hc] at hm
  exact h4 hm

theorem intercalate_single (x : PyStr) : (pystr "/").intercalate [x] = x := by
  simp [List.intercalate]

theorem intercalate_cons₂ (x y : PyStr) (ys : List PyStr) :
    (pystr "/").intercalate (x :: y :: ys)
      = x ++ pystr "/" ++ (pystr "/").intercalate (y :: ys) := by
  simp [List.intercalate, List.intersperse, List.append_assoc]

theorem intercalate_append_last (l : List PyStr) (x : PyStr) (hl : l ≠ []) :
    (pystr "/").intercalate (l ++ [x])
      = (pystr "/").intercalate l ++ pystr "/" ++ x := by
  induction l with
  | nil => exact absurd rfl hl
  | cons a as ih =>
    cases as with
    | nil => simp [intercalate_cons₂, intercalate_single]
    | cons b bs =>
      rw [List.cons_append, List.cons_append, intercalate_cons₂,
        ← List.cons_append, ih (by simp), intercalate_cons₂]
      simp [List.append_assoc]

theorem head?_intercalate (x : PyStr) (xs : List PyStr) (hx : x ≠ []) :
    ((pystr "/").intercalate (x :: xs)).head? = x.head? := by
  cases xs with
  | nil => rw [intercalate_single]
  | cons y ys =>
    rw [intercalate_cons₂, List.append_assoc]
    exact List.head?_append_of_ne_nil _ hx

theorem intercalate_ne_nil (x : PyStr) (xs : List PyStr) (hx : x ≠ []) :
    (pystr "/").intercalate (x :: xs) ≠ [] := by
  intro h
  have := head?_intercalate x xs hx
  rw [h] at this
  cases x with
  | nil => exact hx rfl
  | cons a l => simp at this

theorem getLast?_intercalate_ne_slash :
    ∀ (l : List PyStr), (∀ s ∈ l, cleanName s = true) → l ≠ [] →
      ((pystr "/").intercalate l).getLast? ≠ some '/'
  | [], h, hl => absurd rfl hl
  | [x], h, _ => by
    rw [intercalate_single]
    exact getLast?_ne_slash_of_clean (h x (by simp))
  | x :: y :: ys, h, _ => by
    have hy : cleanName y = true := h y (by simp)
    have hyne : y ≠ [] := ((cleanName_iff y).mp hy).1
    have htail : ∀ s ∈ y :: ys, cleanName s = true :=
      fun s hs => h s (List.mem_cons_of_mem x hs)
    have hI : (pystr "/").intercalate (y :: ys) ≠ [] := intercalate_ne_nil y ys hyne
    rw [intercalate_cons₂, List.append_assoc,
      List.getLast?_append_of_ne_nil x (by rw [pystr_slash]; simp),
      List.getLast?_append_of_ne_nil (pystr "/") hI]
    exact getLast?_intercalate_ne_slash (y :: ys) htail (by simp)

theorem dropWhile_slash_of_head {l : PyStr} (h : l.head? ≠ some '/') :
    l.dropWhile (· = '/') = l := by
  cases l with
  | nil => rfl
  | cons a as =>
    have ha : a ≠ '/' := fun hc => h (by rw [List.head?_cons, hc])
    simp [List.dropWhile_cons, ha]

theorem splitOn_eq_single {a : Char} {l : PyStr} (h : a ∉ l) :
    l.splitOn a = [l] := by
  rw [List.splitOn]
  exact List.splitOnP_eq_single _ _ (fun x hx => by
    simp only [beq_iff_eq]
    exact fun hc => h (hc ▸ hx))

theorem splitOn_slash_cons (l : PyStr) :
    ('/' :: l).splitOn '/' = [] :: l.splitOn '/' := by
  rw [List.splitOn, List.splitOnP_cons, if_pos (by simp), ← List.splitOn]

/-- The normalisation loop leaves a list of ordinary components unchanged. -/
theorem normParts_clean :
    ∀ (l : List PyStr) (acc : List PyStr) (ab : Bool),
      (∀ c ∈ l, cleanName c = true) → normParts ab acc l = acc.reverse ++ l
  | [], acc, ab, _ => by simp [normParts]
  | c :: rest, acc, ab, h => by
    obtain ⟨h1, h2, h3, -⟩ := (cleanName_iff c).mp (h c (by simp))
    rw [normParts, if_neg (by simp [h1, h2]), if_neg h3,
      normParts_clean rest (c :: acc) ab (fun x hx => h x (by simp [hx]))]
    simp

theorem normParts_empty_cons (ab : Bool) (acc : List PyStr) (l : List PyStr) :
    normParts ab acc ([] :: l) = normParts ab acc l := by
  rw [normParts, if_pos (Or.inl rfl)]

theorem isAbsP_eq_false {s : PyStr} (h : s.head? ≠ some '/') : isAbsP s = false := by
  rw [isAbsP, beq_eq_false_iff_ne]
  exact h

/-- `normpath` leaves a single ordinary component unchanged. -/
theorem posixNormpath_single {fn : PyStr} (hf : cleanName fn = true) :
    posixNormpath fn = fn := by
  have h1 : fn ≠ [] := ((cleanName_iff _).mp hf).1
  have h4 : '/' ∉ fn := ((cleanName_iff _).mp hf).2.2.2
  simp only [posixNormpath]
  rw [if_neg h1, splitOn_eq_single h4,
    normParts_clean [fn] [] _ (by intro c hc; rw [List.mem_singleton.mp hc]; exact hf),
    isAbsP_eq_false (head?_ne_slash_of_clean hf)]
  simp only [List.reverse_nil, List.nil_append, Bool.false_eq_true, if_false,
    intercalate_single]
  rw [if_neg h1]

/-- `normpath` leaves an absolute path of ordinary components unchanged. -/
theorem posixNormpath_abs_clean (l : List PyStr) (hl : ∀ s ∈ l, cleanName s = true)
    (hne : l ≠ []) :
    posixNormpath ('/' :: (pystr "/").intercalate l)
      = '/' :: (pystr "/").intercalate l := by
  simp only [posixNormpath]
  rw [if_neg (List.cons_ne_nil _ _), splitOn_slash_cons]
  rw [show (pystr "/").intercalate l = ['/'].intercalate l from by rw [pystr_slash]]
  rw [List.splitOn_intercalate l '/'
    (fun s hs => ((cleanName_iff s).mp (hl s hs)).2.2.2) hne]
  rw [show isAbsP ('/' :: ['/'].intercalate l) = true from by simp [isAbsP]]
  rw [normParts_empty_cons, normParts_clean l [] _ hl]
  simp only [List.reverse_nil, List.nil_append, if_true]
  rw [pystr_slash]
  rw [show (['/'] ++ ['/'].intercalate l : PyStr) = '/' :: ['/'].intercalate l from rfl]
  rw [if_neg (List.cons_ne_nil _ _)]

/-- The arcname the handler hands to the codec: the filename alone for
files at the walk root, otherwise the slash-prefixed relative directory
followed by the filename. -/
theorem rawArcname_val (p : PyStr) (f : FsFile)
    (hds : ∀ d ∈ f.dirSegs, cleanName d = true) (hf : cleanName f.fname = true) :
    rawArcname p f
      = (if f.dirSegs = [] then f.fname
         else '/' :: (pystr "/").intercalate (f.dirSegs ++ [f.fname])) := by
  have hfhead : f.fname.head? ≠ some '/' := head?_ne_slash_of_clean hf
  rw [rawArcname, List.drop_left]
  cases hds0 : f.dirSegs with
  | nil =>
    rw [relRoot, if_pos rfl, if_pos rfl, osPathJoin,
      if_neg (by simp [isAbsP_eq_false hfhead]), if_pos (Or.inl rfl), List.nil_append]
  | cons d ds' =>
    rw [hds0] at hds
    have hd : cleanName d = true := hds d (by simp)
    have hdne : d ≠ [] := ((cleanName_iff d).mp hd).1
    have hIne : (pystr "/").intercalate (d :: ds') ≠ [] := intercalate_ne_nil d ds' hdne
    have hgl : ('/' :: (pystr "/").intercalate (d :: ds')).getLast?
        = ((pystr "/").intercalate (d :: ds')).getLast? := by
      rw [show ('/' :: (pystr "/").intercalate (d :: ds'))
          = ['/'] ++ (pystr "/").intercalate (d :: ds') from rfl]
      exact List.getLast?_append_of_ne_nil _ hIne
    have hglne : ((pystr "/").intercalate (d :: ds')).getLast? ≠ some '/' :=
      getLast?_intercalate_ne_slash (d :: ds') hds (by simp)
    rw [relRoot, if_neg (List.cons_ne_nil _ _), if_neg (List.cons_ne_nil _ _),
      osPathJoin, if_neg (by simp [isAbsP_eq_false hfhead]), if_neg (by
        rintro (h | h)
        · exact List.cons_ne_nil _ _ h
        · rw [hgl] at h
          exact hglne (eq_of_beq h))]
    rw [intercalate_append_last (d :: ds') f.fname (by simp)]
    rfl

/-- The name actually stored by either codec is the source-relative path. -/
theorem storedName_clean (c : Codec) (p : PyStr) (f : FsFile)
    (hds : ∀ d ∈ f.dirSegs, cleanName d = true) (hf : cleanName f.fname = true) :
    storedName c (rawArcname p f) = relPathStr f := by
  have hfhead : f.fname.head? ≠ some '/' := head?_ne_slash_of_clean hf
  rw [rawArcname_val p f hds hf, relPathStr]
  cases hds0 : f.dirSegs with
  | nil =>
    rw [if_pos rfl, List.nil_append, intercalate_single]
    cases c with
    | zipW =>
      show (posixNormpath f.fname).dropWhile (· = '/') = f.fname
      rw [posixNormpath_single hf]
      exact dropWhile_slash_of_head hfhead
    | tarW => exact dropWhile_slash_of_head hfhead
  | cons d ds' =>
    rw [hds0] at hds
    have hall : ∀ s ∈ (d :: ds') ++ [f.fname], cleanName s = true := by
      intro s hs
      rcases List.mem_append.mp hs with h | h
      · exact hds s h
      · rw [List.mem_singleton.mp h]; exact hf
    have hd : cleanName d = true := hds d (by simp)
    have hdne : d ≠ [] := ((cleanName_iff d).mp hd).1
    have hJhead : ((pystr "/").intercalate ((d :: ds') ++ [f.fname])).head?
        = d.head? := by
      rw [show (d :: ds') ++ [f.fname] = d :: (ds' ++ [f.fname]) from rfl]
      exact head?_intercalate d _ hdne
    have hJh : ((pystr "/").intercalate ((d :: ds') ++ [f.fname])).head?
        ≠ some '/' := by
      rw [hJhead]; exact head?_ne_slash_of_clean hd
    rw [if_neg (List.cons_ne_nil _ _)]
    cases c with
    | zipW =>
      show (posixNormpath _).dropWhile (· = '/') = _
      rw [posixNormpath_abs_clean _ hall (by simp), List.dropWhile_cons,
        if_pos (by simp)]
      exact dropWhile_slash_of_head hJh
    | tarW =>
      simp only [storedName, tarWriteArcname]
      rw [List.dropWhile_cons, if_pos (by simp)]
      exact dropWhile_slash_of_head hJh

/-- With ordinary names throughout the tree, the writer stores every file
under its source-relative path. -/
theorem writeArchive_clean (c : Codec) (p : PyStr) (t : FsTree)
    (h : cleanTree t = true) :
    writeArchive c p t = ⟨t.map (fun f => ⟨relPathStr f, f.content⟩)⟩ := by
  rw [writeArchive]
  congr 1
  refine List.map_congr_left (fun f hf => ?_)
  have hff := List.all_eq_true.mp h f hf
  rw [Bool.and_eq_true] at hff
  rw [storedName_clean c p f (List.all_eq_true.mp hff.1) hff.2]

/-- Sanitisation of `extractall` leaves a clean relative path unchanged. -/
theorem zipSanitize_clean (l : List PyStr) (hl : ∀ s ∈ l, cleanName s = true)
    (hne : l ≠ []) :
    zipSanitize ((pystr "/").intercalate l) = (pystr "/").intercalate l := by
  rw [zipSanitize]
  rw [show (pystr "/").intercalate l = ['/'].intercalate l from by rw [pystr_slash]]
  rw [List.splitOn_intercalate l '/'
    (fun s hs => ((cleanName_iff s).mp (hl s hs)).2.2.2) hne]
  rw [List.filter_eq_self.mpr (by
    intro s hs
    obtain ⟨h1, h2, h3, -⟩ := (cleanName_iff s).mp (hl s hs)
    simp [h1, h2, h3])]
  rw [pystr_slash]

theorem filterMap_eq_map_of_forall {α β : Type} (g : α → Option β) (k : α → β) :
    ∀ (l : List α), (∀ x ∈ l, g x = some (k x)) → l.filterMap g = l.map k
  | [], _ => rfl
  | a :: as, h => by
    rw [List.filterMap_cons, h a (by simp), List.map_cons,
      filterMap_eq_map_of_forall g k as (fun x hx => h x (by simp [hx]))]

/-- With a datetime `today` that is `s` seconds past midnight of day
`todayDay`, `timedelta.days` against midnight of `day` is the whole-day
calendar difference. -/
theorem timedeltaDays_whole (todayDay day s : Int) (hs0 : 0 ≤ s) (hs1 : s < 86400) :
    timedeltaDays (todayDay * 86400 + s) day = todayDay - day := by
  rw [timedeltaDays]
  have h1 : todayDay * 86400 + s - day * 86400 = s + (todayDay - day) * 86400 := by
    ring
  rw [h1, Int.fdiv_eq_ediv _ (by norm_num),
    Int.add_mul_ediv_right _ _ (by norm_num : (86400 : Int) ≠ 0),
    Int.ediv_eq_zero_of_lt hs0 hs1, zero_add]

theorem makeReader_err {name : PyStr}
    (h : pyEndsWith (joinedSuffixes name) (pystr ".qzv") = false) :
    makeReader name = .error (.valueError (joinedSuffixes name)) := by
  rw [makeReader]
  simp [h]

theorem makeReader_ok_iff (name : PyStr) :
    (∃ rk, makeReader name = .ok rk)
      ↔ pyEndsWith (joinedSuffixes name) (pystr ".qzv") = true := by
  cases hb : pyEndsWith (joinedSuffixes name) (pystr ".qzv") with
  | false => simp [makeReader, hb]
  | true => exact ⟨fun _ => rfl, fun _ => ⟨.zipFile, by simp [makeReader, hb]⟩⟩

/-- `os.path.join` discards the service prefix: the handler's URL literal
is absolute. -/
theorem resultUrl_eq (svcPfx u : PyStr) :
    resultUrl svcPfx u = pystr "/shiny/_qiime/" ++ u ++ pystr "/data/#" := rfl

/-! ## Claim theorems -/

/-- C3 (counterexample): the claim says the resolver accepts the token
`tar.gz` (among others) and maps it to a codec; `make_writer` in fact
raises `ValueError` on it. -/
theorem c3_counterexample :
    makeWriter (pystr "tar.gz") = .error (.valueError (pystr "tar.gz")) := rfl

/-- C3 (amended): the writer resolver accepts exactly the tokens `zip`
(ZipFile, write mode) and `tgz` (TarFile, write mode — an uncompressed tar
despite the token), raising `ValueError` on every other token; the
extraction resolver accepts exactly the filenames whose joined suffixes end
in `.qzv` (opened as a zip) and raises `ValueError` otherwise. -/
theorem c3_amended :
    (∀ fmt : PyStr, (∃ c, makeWriter fmt = .ok c)
        ↔ (fmt = pystr "zip" ∨ fmt = pystr "tgz")) ∧
    makeWriter (pystr "zip") = .ok .zipW ∧
    makeWriter (pystr "tgz") = .ok .tarW ∧
    (∀ name : PyStr, (∃ rk, makeReader name = .ok rk)
        ↔ pyEndsWith (joinedSuffixes name) (pystr ".qzv") = true) := by
  refine ⟨fun fmt => ⟨?_, ?_⟩, rfl, rfl, makeReader_ok_iff⟩
  · rintro ⟨c, hc⟩
    by_cases h1 : fmt = pystr "zip"
    · exact Or.inl h1
    · by_cases h2 : fmt = pystr "tgz"
      · exact Or.inr h2
      · rw [makeWriter, if_neg h1, if_neg h2] at hc
        cases hc
  · rintro (rfl | rfl)
    · exact ⟨.zipW, rfl⟩
    · exact ⟨.tarW, rfl⟩

/-- C4 (confirmed): with the sweep running at `s` seconds past midnight of
day `todayDay`, a child of the retention root is removed exactly when it
bears a marker whose date is more than `thr` whole days old; a child whose
age equals the threshold is retained, and a markerless child is never
removed. -/
theorem c4_retention (thr todayDay s : Int) (dirs : List ChildDir)
    (hs0 : 0 ≤ s) (hs1 : s < 86400) (d : ChildDir) (hd : d ∈ dirs) :
    d ∈ cleanupRemoved thr (todayDay * 86400 + s) dirs
      ↔ ∃ day, d.markerDay = some day ∧ thr < todayDay - day := by
  rw [cleanupRemoved, List.mem_filter]
  cases hm : d.markerDay with
  | none => simp [hd, hm]
  | some day =>
    simp only [hm, hd, true_and]
    rw [timedeltaDays_whole todayDay day s hs0 hs1]
    simp

/-- C4 (witness): threshold 10 on day 20, one hour past midnight — the
directory created on day 9 (age 11) is removed. -/
theorem c4_retention_witness :
    (0 : Int) ≤ 3600 ∧ (3600 : Int) < 86400 ∧
    (⟨pystr "old", some 9⟩ : ChildDir) ∈
        [⟨pystr "old", some 9⟩, ⟨pystr "fresh", some 10⟩,
         ⟨pystr "nomark", none⟩] ∧
    ((⟨pystr "old", some 9⟩ : ChildDir) ∈
        cleanupRemoved 10 (20 * 86400 + 3600)
          [⟨pystr "old", some 9⟩, ⟨pystr "fresh", some 10⟩,
           ⟨pystr "nomark", none⟩]
      ↔ ∃ day, (⟨pystr "old", some 9⟩ : ChildDir).markerDay = some day
          ∧ 10 < 20 - day) :=
  ⟨by norm_num, by norm_num, by decide,
   c4_retention 10 20 3600 _ (by norm_num) (by norm_num) _ (by decide)⟩

/-- C6 (counterexample): on an archive with zero entries, the request dies
with an uncaught `IndexError` from `get_uuid` — the handler-written
JSON-bodied 500 of the claim is never produced. -/
theorem c6_counterexample :
    handlerGet (pystr "/") (pystr "/home/jovyan") (pystr "a.qzv") ⟨[]⟩
      = ⟨[.readArchive], .uncaught .indexError⟩ ∧
    (handlerGet (pystr "/") (pystr "/home/jovyan") (pystr "a.qzv")
        ⟨[]⟩).outcome
      ≠ .jsonError500 (pystr "Failed to get UUID from the QZV file: a.qzv") :=
  ⟨rfl, by decide⟩

/-- C6 (amended): identity resolution on an empty archive raises an
uncaught `IndexError` (surfaced by the framework as a generic 500, with no
handler-written `{"data": ...}` body), and no extraction is attempted; the
handler's JSON 500 path is reserved for a first entry with no path
segment. -/
theorem c6_amended (svcPfx home name : PyStr) :
    handlerGet svcPfx home name ⟨[]⟩ = ⟨[.readArchive], .uncaught .indexError⟩ ∧
    Ev.extract ∉ (handlerGet svcPfx home name ⟨[]⟩).trace := by
  refine ⟨rfl, ?_⟩
  show Ev.extract ∉ [Ev.readArchive]
  decide

/-- C10 (confirmed): the response is independent of
`JUPYTERHUB_SERVICE_PREFIX` — two requests differing only in the prefix
yield identical results, because the second argument of `os.path.join` is
absolute, so the successful URL is always
`/shiny/_qiime/<identifier>/data/#`. -/
theorem c10_service_prefix_ignored (pfx1 pfx2 home name : PyStr) (ar : Archive)
    (u : PyStr) :
    handlerGet pfx1 home name ar = handlerGet pfx2 home name ar ∧
    resultUrl pfx1 u = pystr "/shiny/_qiime/" ++ u ++ pystr "/data/#" := by
  refine ⟨?_, resultUrl_eq pfx1 u⟩
  unfold handlerGet
  rcases hg : getUuid ar with e | o
  · rfl
  · rcases o with _ | uu
    · rfl
    · rcases hx : extractQzv home name ar with err | files
      · rcases err with e | n <;> rfl
      · simp [resultUrl_eq]

/-- C1 (counterexample): an archive named `evil.qzv` whose single entry
path begins with a parent-directory traversal segment is extracted without
any `UnsafePath`/400 failure — the request succeeds and a file IS created
under the destination root (at the sanitised name `escape.txt`), because
the traversal check only runs for tar readers and `make_reader` always
returns a zip reader. -/
theorem c1_counterexample :
    handlerGet (pystr "/") (pystr "/home/jovyan") (pystr "evil.qzv")
        ⟨[⟨pystr "../escape.txt", [104, 105]⟩]⟩
      = ⟨[.readArchive, .cleanup, .extract, .writeTimestamp],
         .ok ⟨pystr "..", pystr "/shiny/_qiime/../data/#",
              pystr "/home/jovyan/_qiime/../_created",
              [(pystr "escape.txt", [104, 105])]⟩⟩ := by decide

/-- C1 (amended): the path-traversal check guards only tar-format readers;
since every archive `make_reader` accepts is opened as a zip, extraction
never fails with `UnsafePath` (HTTP 400), and every non-directory entry —
including one with traversal segments — is written at its sanitised name
(traversal segments stripped by `zipfile.extractall`) inside the
destination root. -/
theorem c1_amended (svcPfx home name : PyStr) (ar : Archive) (st : Nat)
    (n : PyStr) (h : makeReader name = .ok .zipFile) :
    extractQzv home name ar = .ok (zipExtractAll ar) ∧
    (handlerGet svcPfx home name ar).outcome ≠ .httpError st n := by
  have hex : extractQzv home name ar = .ok (zipExtractAll ar) := by
    simp [extractQzv, h]
  refine ⟨hex, ?_⟩
  unfold handlerGet
  rcases hg : getUuid ar with e | o
  · simp
  · rcases o with _ | uu
    · simp
    · rw [hex]
      simp

/-- C1 (witness): the amended theorem at a concrete safe archive. -/
theorem c1_amended_witness :
    makeReader (pystr "ok.qzv") = .ok .zipFile ∧
    (extractQzv (pystr "/home/jovyan") (pystr "ok.qzv")
          ⟨[⟨pystr "u1/a.txt", [1]⟩]⟩
        = .ok (zipExtractAll ⟨[⟨pystr "u1/a.txt", [1]⟩]⟩) ∧
      (handlerGet (pystr "/") (pystr "/home/jovyan") (pystr "ok.qzv")
            ⟨[⟨pystr "u1/a.txt", [1]⟩]⟩).outcome
        ≠ .httpError 400 (pystr "u1/a.txt")) :=
  ⟨rfl, c1_amended (pystr "/") (pystr "/home/jovyan") (pystr "ok.qzv")
      ⟨[⟨pystr "u1/a.txt", [1]⟩]⟩ 400 (pystr "u1/a.txt") rfl⟩

/-- C2 (counterexample): for a well-formed zip archive under the spoofed
name `archive.prefixqzv`, the run's trace begins with a read of the
archive (`get_uuid` opens and lists it) and only afterwards dies with the
uncaught `ValueError` from `make_reader` — the failure does NOT occur
before any read of the archive's content, contradicting the claim. -/
theorem c2_counterexample :
    handlerGet (pystr "/") (pystr "/home/jovyan") (pystr "archive.prefixqzv")
        ⟨[⟨pystr "abc/manifest.yaml", [104]⟩]⟩
      = ⟨[.readArchive, .cleanup],
         .uncaught (.valueError (pystr ".prefixqzv"))⟩ ∧
    Ev.readArchive ∈ (handlerGet (pystr "/") (pystr "/home/jovyan")
        (pystr "archive.prefixqzv")
        ⟨[⟨pystr "abc/manifest.yaml", [104]⟩]⟩).trace := by
  exact ⟨by decide, by decide⟩

/-- C2 (amended): a request whose filename's joined suffixes do not end in
the recognised `.qzv` suffix does fail on the format (the `ValueError`
from `make_reader`, surfaced as an uncaught 500) — but only after identity
resolution has already opened and read the archive's content: the trace of
such a run is read-then-sweep, ending in the format error. -/
theorem c2_amended (svcPfx home name : PyStr) (ar : Archive) (u : PyStr)
    (hfmt : pyEndsWith (joinedSuffixes name) (pystr ".qzv") = false)
    (hu : getUuid ar = .ok (some u)) :
    handlerGet svcPfx home name ar
      = ⟨[.readArchive, .cleanup],
         .uncaught (.valueError (joinedSuffixes name))⟩ := by
  have hex : extractQzv home name ar
      = .error (.py (.valueError (joinedSuffixes name))) := by
    simp [extractQzv, makeReader_err hfmt]
  unfold handlerGet
  simp [hu, hex]

/-- C2 (witness): the amended theorem at a concrete spoofed name. -/
theorem c2_amended_witness :
    pyEndsWith (joinedSuffixes (pystr "data.prefixqzv")) (pystr ".qzv") = false ∧
    getUuid ⟨[⟨pystr "u2/x", [7]⟩]⟩ = .ok (some (pystr "u2")) ∧
    handlerGet (pystr "/") (pystr "/home/jovyan") (pystr "data.prefixqzv")
        ⟨[⟨pystr "u2/x", [7]⟩]⟩
      = ⟨[.readArchive, .cleanup],
         .uncaught (.valueError (joinedSuffixes (pystr "data.prefixqzv")))⟩ :=
  ⟨rfl, rfl, c2_amended (pystr "/") (pystr "/home/jovyan")
      (pystr "data.prefixqzv") ⟨[⟨pystr "u2/x", [7]⟩]⟩ (pystr "u2") rfl rfl⟩

/-- C5 (confirmed): for an archive with at least one entry whose first
listed entry has a first path segment, `get_uuid` returns exactly that
segment, and a successful request uses it both as the key of the
timestamp-marker path and as the component of the result URL. -/
theorem c5_identifier (svcPfx home name : PyStr) (ar : Archive)
    (e0 : ZipEntry) (rest : List ZipEntry) (seg : PyStr) (segs : List PyStr)
    (h1 : ar.entries = e0 :: rest)
    (h2 : pathParts e0.name = seg :: segs)
    (h3 : makeReader name = .ok .zipFile) :
    getUuid ar = .ok (some seg) ∧
    handlerGet svcPfx home name ar
      = ⟨[.readArchive, .cleanup, .extract, .writeTimestamp],
         .ok ⟨seg, resultUrl svcPfx seg, writeTimestampPath home seg,
              zipExtractAll ar⟩⟩ := by
  have hg : getUuid ar = .ok (some seg) := by
    unfold getUuid
    rw [h1]
    show Except.ok (pathParts e0.name).head? = Except.ok (some seg)
    rw [h2]
    rfl
  have hex : extractQzv home name ar = .ok (zipExtractAll ar) := by
    simp [extractQzv, h3]
  refine ⟨hg, ?_⟩
  unfold handlerGet
  simp [hg, hex]

/-- C5 (witness): the spec's own example: a first entry
`123e4567-e89b/manifest.yaml` yields identifier `123e4567-e89b`, which
names the marker path and the URL. -/
theorem c5_identifier_witness :
    (⟨[⟨pystr "123e4567-e89b/manifest.yaml", [5]⟩,
       ⟨pystr "123e4567-e89b/data/index.html", [6]⟩]⟩ : Archive).entries
        = ⟨pystr "123e4567-e89b/manifest.yaml", [5]⟩
            :: [⟨pystr "123e4567-e89b/data/index.html", [6]⟩] ∧
    pathParts (pystr "123e4567-e89b/manifest.yaml")
        = pystr "123e4567-e89b" :: [pystr "manifest.yaml"] ∧
    makeReader (pystr "view.qzv") = .ok .zipFile ∧
    (getUuid ⟨[⟨pystr "123e4567-e89b/manifest.yaml", [5]⟩,
               ⟨pystr "123e4567-e89b/data/index.html", [6]⟩]⟩
        = .ok (some (pystr "123e4567-e89b")) ∧
     handlerGet (pystr "/hub/") (pystr "/home/jovyan") (pystr "view.qzv")
         ⟨[⟨pystr "123e4567-e89b/manifest.yaml", [5]⟩,
           ⟨pystr "123e4567-e89b/data/index.html", [6]⟩]⟩
       = ⟨[.readArchive, .cleanup, .extract, .writeTimestamp],
          .ok ⟨pystr "123e4567-e89b",
               resultUrl (pystr "/hub/") (pystr "123e4567-e89b"),
               writeTimestampPath (pystr "/home/jovyan")
                 (pystr "123e4567-e89b"),
               zipExtractAll ⟨[⟨pystr "123e4567-e89b/manifest.yaml", [5]⟩,
                 ⟨pystr "123e4567-e89b/data/index.html", [6]⟩]⟩⟩⟩) :=
  ⟨rfl, by decide, rfl,
   c5_identifier (pystr "/hub/") (pystr "/home/jovyan") (pystr "view.qzv")
     ⟨[⟨pystr "123e4567-e89b/manifest.yaml", [5]⟩,
       ⟨pystr "123e4567-e89b/data/index.html", [6]⟩]⟩
     ⟨pystr "123e4567-e89b/manifest.yaml", [5]⟩
     [⟨pystr "123e4567-e89b/data/index.html", [6]⟩]
     (pystr "123e4567-e89b") [pystr "manifest.yaml"] rfl (by decide) rfl⟩

/-- The only three event traces a request can produce: fail at identity
resolution; fail at extraction after the sweep; or run to completion. -/
theorem handlerGet_trace_cases (svcPfx home name : PyStr) (ar : Archive) :
    (handlerGet svcPfx home name ar).trace = [.readArchive] ∨
    (handlerGet svcPfx home name ar).trace = [.readArchive, .cleanup] ∨
    (handlerGet svcPfx home name ar).trace
      = [.readArchive, .cleanup, .extract, .writeTimestamp] := by
  unfold handlerGet
  rcases hg : getUuid ar with e | o
  · left; rfl
  · rcases o with _ | uu
    · left; rfl
    · rcases hx : extractQzv home name ar with err | files
      · rcases err with e | n
        · right; left; rfl
        · right; left; rfl
      · right; right; rfl

/-- C9 (confirmed): in every request that writes the new extraction's
timestamp marker, the retention sweep ran exactly once, and it completed
strictly before the marker write — so the directory the current request
creates or refreshes can never be deleted by that request's own sweep. -/
theorem c9_sweep_before_marker (svcPfx home name : PyStr) (ar : Archive)
    (h : Ev.writeTimestamp ∈ (handlerGet svcPfx home name ar).trace) :
    (handlerGet svcPfx home name ar).trace
        = [.readArchive, .cleanup, .extract, .writeTimestamp] ∧
    (handlerGet svcPfx home name ar).trace.count Ev.cleanup = 1 ∧
    (handlerGet svcPfx home name ar).trace.indexOf Ev.cleanup
      < (handlerGet svcPfx home name ar).trace.indexOf Ev.writeTimestamp := by
  rcases handlerGet_trace_cases svcPfx home name ar with h1 | h1 | h1
  · rw [h1] at h; exact absurd h (by decide)
  · rw [h1] at h; exact absurd h (by decide)
  · rw [h1]; exact ⟨rfl, by decide, by decide⟩

/-- C9 (witness): a concrete successful extraction request. -/
theorem c9_sweep_before_marker_witness :
    Ev.writeTimestamp ∈ (handlerGet (pystr "/") (pystr "/home/jovyan")
        (pystr "w.qzv") ⟨[⟨pystr "u9/f", [2]⟩]⟩).trace ∧
    ((handlerGet (pystr "/") (pystr "/home/jovyan") (pystr "w.qzv")
          ⟨[⟨pystr "u9/f", [2]⟩]⟩).trace
        = [.readArchive, .cleanup, .extract, .writeTimestamp] ∧
      (handlerGet (pystr "/") (pystr "/home/jovyan") (pystr "w.qzv")
          ⟨[⟨pystr "u9/f", [2]⟩]⟩).trace.count Ev.cleanup = 1 ∧
      (handlerGet (pystr "/") (pystr "/home/jovyan") (pystr "w.qzv")
          ⟨[⟨pystr "u9/f", [2]⟩]⟩).trace.indexOf Ev.cleanup
        < (handlerGet (pystr "/") (pystr "/home/jovyan") (pystr "w.qzv")
            ⟨[⟨pystr "u9/f", [2]⟩]⟩).trace.indexOf Ev.writeTimestamp) :=
  ⟨by decide, c9_sweep_before_marker (pystr "/") (pystr "/home/jovyan")
      (pystr "w.qzv") ⟨[⟨pystr "u9/f", [2]⟩]⟩ (by decide)⟩

/-- C7 (confirmed): for every source tree of ordinary names and either
codec, every regular file of the walk is stored under exactly its path
relative to the source directory — with no leading separator (the
handler's slash-prefixed `root[len(archive_path):]` arcname is normalised
by the codec's `ZipInfo.from_file` / `gettarinfo` before storage). -/
theorem c7_stored_relative (c : Codec) (p : PyStr) (t : FsTree)
    (h : cleanTree t = true) :
    (writeArchive c p t).entries
        = t.map (fun f => ⟨relPathStr f, f.content⟩) ∧
    ∀ f ∈ t, isAbsP (relPathStr f) = false := by
  refine ⟨by rw [writeArchive_clean c p t h], fun f hf => ?_⟩
  have hff := List.all_eq_true.mp h f hf
  rw [Bool.and_eq_true] at hff
  have hfn : cleanName f.fname = true := hff.2
  have hds : ∀ d ∈ f.dirSegs, cleanName d = true := List.all_eq_true.mp hff.1
  rw [relPathStr]
  cases hds0 : f.dirSegs with
  | nil =>
    rw [List.nil_append, intercalate_single]
    exact isAbsP_eq_false (head?_ne_slash_of_clean hfn)
  | cons d ds' =>
    rw [hds0] at hds
    have hd := hds d (by simp)
    apply isAbsP_eq_false
    rw [show (d :: ds') ++ [f.fname] = d :: (ds' ++ [f.fname]) from rfl,
      head?_intercalate d _ (((cleanName_iff d).mp hd).1)]
    exact head?_ne_slash_of_clean hd

/-- C7 (witness): a two-file tree, one file in a subdirectory. -/
theorem c7_stored_relative_witness :
    cleanTree [⟨[], pystr "a.txt", [1]⟩, ⟨[pystr "sub"], pystr "b.txt", [2]⟩]
        = true ∧
    (writeArchive .zipW (pystr "/home/u/nb")
          [⟨[], pystr "a.txt", [1]⟩,
           ⟨[pystr "sub"], pystr "b.txt", [2]⟩]).entries
        = [⟨[], pystr "a.txt", [1]⟩,
           ⟨[pystr "sub"], pystr "b.txt", [2]⟩].map
            (fun f => ⟨relPathStr f, f.content⟩) ∧
    isAbsP (relPathStr ⟨[pystr "sub"], pystr "b.txt", [2]⟩) = false :=
  ⟨by decide,
   (c7_stored_relative .zipW (pystr "/home/u/nb")
       [⟨[], pystr "a.txt", [1]⟩, ⟨[pystr "sub"], pystr "b.txt", [2]⟩]
       (by decide)).1,
   (c7_stored_relative .zipW (pystr "/home/u/nb")
       [⟨[], pystr "a.txt", [1]⟩, ⟨[pystr "sub"], pystr "b.txt", [2]⟩]
       (by decide)).2 ⟨[pystr "sub"], pystr "b.txt", [2]⟩ (by decide)⟩

/-- C8 (counterexample): the spec's own three-file scenario written with
the tar codec (`tgz` token, writer filename `nb.tgz`): the extractor
rejects the produced archive outright (`make_reader` raises `ValueError`
on the `.tgz` suffix), so write-then-extract reproduces nothing — the
round trip fails for this supported codec. -/
theorem c8_counterexample :
    extractQzv (pystr "/home/jovyan") (pystr "nb.tgz")
        (writeArchive .tarW (pystr "/home/jovyan/nb")
          [⟨[], pystr "a.txt", [104, 101, 108, 108, 111, 49]⟩,
           ⟨[], pystr "b.txt", [104, 101, 108, 108, 111, 50]⟩,
           ⟨[], pystr "c.md", [104, 101, 108, 108, 111, 51]⟩])
      = .error (.py (.valueError (pystr ".tgz"))) := rfl

/-- C8 (amended): the write-then-extract round trip holds for the zip
codec provided the archive file carries a `.qzv`-accepted name: extraction
then reproduces exactly the tree's relative file paths with exactly its
byte contents.  For the tar codec (or a zip archive under the writer's own
`<name>.zip` naming) the extractor rejects the file, so no round trip
exists there. -/
theorem c8_roundtrip_zip (home p name : PyStr) (t : FsTree)
    (hclean : cleanTree t = true)
    (hname : makeReader name = .ok .zipFile) :
    extractQzv home name (writeArchive .zipW p t)
      = .ok (t.map (fun f => (relPathStr f, f.content))) := by
  have hex : extractQzv home name (writeArchive .zipW p t)
      = .ok (zipExtractAll (writeArchive .zipW p t)) := by
    simp [extractQzv, hname]
  have hlist : zipExtractAll
        ⟨t.map (fun f => (⟨relPathStr f, f.content⟩ : ZipEntry))⟩
      = t.map (fun f => (relPathStr f, f.content)) := by
    rw [zipExtractAll]
    rw [show (⟨t.map (fun f => (⟨relPathStr f, f.content⟩ : ZipEntry))⟩
          : Archive).entries
        = t.map (fun f => (⟨relPathStr f, f.content⟩ : ZipEntry)) from rfl]
    rw [List.filterMap_map]
    apply filterMap_eq_map_of_forall
    intro f hf
    have hff := List.all_eq_true.mp hclean f hf
    rw [Bool.and_eq_true] at hff
    have hds : ∀ d ∈ f.dirSegs, cleanName d = true := List.all_eq_true.mp hff.1
    have hall : ∀ s ∈ f.dirSegs ++ [f.fname], cleanName s = true := by
      intro s hs
      rcases List.mem_append.mp hs with h | h
      · exact hds s h
      · rw [List.mem_singleton.mp h]; exact hff.2
    have hne : f.dirSegs ++ [f.fname] ≠ [] := by simp
    show (if (relPathStr f).getLast? == some '/' then none
          else some (zipSanitize (relPathStr f), f.content))
        = some (relPathStr f, f.content)
    rw [if_neg (by
      intro hb
      exact (getLast?_intercalate_ne_slash _ hall hne) (eq_of_beq hb))]
    rw [show zipSanitize (relPathStr f)
        = zipSanitize ((pystr "/").intercalate (f.dirSegs ++ [f.fname]))
        from rfl]
    rw [zipSanitize_clean _ hall hne]
    rfl
  rw [hex, writeArchive_clean .zipW p t hclean, hlist]

/-- C8 (witness): the spec's concrete scenario — `a.txt`("hello1"),
`b.txt`("hello2"), `c.md`("hello3") — through zip write and extraction
under an accepted name. -/
theorem c8_roundtrip_zip_witness :
    cleanTree [⟨[], pystr "a.txt", [104, 101, 108, 108, 111, 49]⟩,
               ⟨[], pystr "b.txt", [104, 101, 108, 108, 111, 50]⟩,
               ⟨[], pystr "c.md", [104, 101, 108, 108, 111, 51]⟩] = true ∧
    makeReader (pystr "nb.qzv") = .ok .zipFile ∧
    extractQzv (pystr "/home/jovyan") (pystr "nb.qzv")
        (writeArchive .zipW (pystr "/home/jovyan/nb")
          [⟨[], pystr "a.txt", [104, 101, 108, 108, 111, 49]⟩,
           ⟨[], pystr "b.txt", [104, 101, 108, 108, 111, 50]⟩,
           ⟨[], pystr "c.md", [104, 101, 108, 108, 111, 51]⟩])
      = .ok ([⟨[], pystr "a.txt", [104, 101, 108, 108, 111, 49]⟩,
              ⟨[], pystr "b.txt", [104, 101, 108, 108, 111, 50]⟩,
              ⟨[], pystr "c.md", [104, 101, 108, 108, 111, 51]⟩].map
          (fun f => (relPathStr f, f.content))) :=
  ⟨by decide, rfl,
   c8_roundtrip_zip (pystr "/home/jovyan") (pystr "/home/jovyan/nb")
     (pystr "nb.qzv")
     [⟨[], pystr "a.txt", [104, 101, 108, 108, 111, 49]⟩,
      ⟨[], pystr "b.txt", [104, 101, 108, 108, 111, 50]⟩,
      ⟨[], pystr "c.md", [104, 101, 108, 108, 111, 51]⟩]
     (by decide) rfl⟩
